import Mathlib

/-!
# hardhat.config.js

A verification development for the build configuration module
`3. Solidity/project-2/unit-test-voting-hardhat/hardhat.config.js`.

The module consists of one `require` statement, executed for its effect, and
one assignment of an object literal to `module.exports`.  The object literal
is embedded twice: as the value it denotes (`moduleExports`, a `JsValue`) and
as the syntax the module evaluates (`moduleExportsExpr`, a `JsExpr`); the lemma
`eval_moduleExportsExpr` ties the two together.
-/

set_option maxRecDepth 100000

namespace HardhatConfig

/-! ## JavaScript values -/

/-- The JavaScript values an object literal can hold.  Numbers are the integer
numbers, the only ones the module writes; objects keep their properties in
insertion order, as JavaScript does for keys that are not array indices. -/
inductive JsValue where
  | str (s : String)
  | num (n : Int)
  | bool (b : Bool)
  | null
  | func (name : String)
  | arr (elems : List JsValue)
  | obj (members : List (String × JsValue))

/-- The result of JavaScript's `typeof`, with arrays and `null` reported as `object`. -/
inductive JsType where
  | string
  | number
  | boolean
  | function
  | object
  deriving DecidableEq, Repr

namespace JsValue

/-- Property lookup in a member list: the first member with the given key. -/
def lookup (key : String) : List (String × JsValue) → Option JsValue
  | [] => none
  | (k, v) :: rest => if k = key then some v else lookup key rest

/-- Property access `v[key]` on an object; `none` stands for `undefined`. -/
def get (key : String) : JsValue → Option JsValue
  | obj ms => lookup key ms
  | _ => none

/-- The own keys of an object, `Object.keys(v)`. -/
def keys : JsValue → List String
  | obj ms => ms.map Prod.fst
  | _ => []

/-- The elements of an array. -/
def elems : JsValue → List JsValue
  | arr es => es
  | _ => []

/-- The string held by a value, if it is a string. -/
def asStr : JsValue → Option String
  | str s => some s
  | _ => none

/-- The integer held by a value, if it is a number. -/
def asNum : JsValue → Option Int
  | num n => some n
  | _ => none

/-- The boolean held by a value, if it is a boolean. -/
def asBool : JsValue → Option Bool
  | bool b => some b
  | _ => none

/-- Property access along a path of keys. -/
def getPath : List String → JsValue → Option JsValue
  | [], v => some v
  | k :: ks, v => (v.get k).bind (getPath ks)

/-- The `typeof` of a value. -/
def typeOf : JsValue → JsType
  | str _ => .string
  | num _ => .number
  | bool _ => .boolean
  | func _ => .function
  | null => .object
  | arr _ => .object
  | obj _ => .object

mutual
/-- Whether a function value occurs anywhere inside the value. -/
def hasFunction : JsValue → Bool
  | func _ => true
  | arr es => hasFunctionElems es
  | obj ms => hasFunctionMembers ms
  | _ => false
/-- Whether a function value occurs inside one of the elements. -/
def hasFunctionElems : List JsValue → Bool
  | [] => false
  | e :: es => hasFunction e || hasFunctionElems es
/-- Whether a function value occurs inside one of the members. -/
def hasFunctionMembers : List (String × JsValue) → Bool
  | [] => false
  | (_, v) :: ms => hasFunction v || hasFunctionMembers ms
end

mutual
/-- The leaves of a value, each with the path of keys leading to it (array
elements are keyed by their index) and its `typeof`.  A leaf is a value that
is not a non-empty array or object. -/
def leaves : List String → JsValue → List (List String × JsType)
  | path, arr (e :: es) => leavesElems path 0 (e :: es)
  | path, obj (m :: ms) => leavesMembers path (m :: ms)
  | path, v => [(path, typeOf v)]
/-- The leaves of the elements of an array, the first element having index `i`. -/
def leavesElems : List String → Nat → List JsValue → List (List String × JsType)
  | _, _, [] => []
  | path, i, e :: es => leaves (path ++ [toString i]) e ++ leavesElems path (i + 1) es
/-- The leaves of the members of an object. -/
def leavesMembers : List String → List (String × JsValue) → List (List String × JsType)
  | _, [] => []
  | path, (k, v) :: ms => leaves (path ++ [k]) v ++ leavesMembers path ms
end

mutual
/-- The paths of all properties named `key` inside a value. -/
def pathsTo (key : String) : List String → JsValue → List (List String)
  | path, arr es => pathsToElems key path 0 es
  | path, obj ms => pathsToMembers key path ms
  | _, _ => []
/-- The paths of all properties named `key` inside the elements of an array. -/
def pathsToElems (key : String) : List String → Nat → List JsValue → List (List String)
  | _, _, [] => []
  | path, i, e :: es => pathsTo key (path ++ [toString i]) e ++ pathsToElems key path (i + 1) es
/-- The paths of all properties named `key` among and inside the members of an object. -/
def pathsToMembers (key : String) : List String → List (String × JsValue) → List (List String)
  | _, [] => []
  | path, (k, v) :: ms =>
    (if k = key then [path ++ [k]] else []) ++
      (pathsTo key (path ++ [k]) v ++ pathsToMembers key path ms)
end

end JsValue

open JsValue

/-! ## The exported record -/

/-- The value assigned to `module.exports` (lines 4 to 24 of the module). -/
def moduleExports : JsValue :=
  .obj [
    ("networks", .obj [
      ("localhost", .obj [
        ("url", .str "http://127.0.0.1:8545"),
        ("chainId", .num 31337)])]),
    ("solidity", .obj [
      ("compilers", .arr [
        .obj [
          ("version", .str "0.8.13")]])]),
    ("settings", .obj [
      ("optimizer", .obj [
        ("enabled", .bool true),
        ("runs", .num 1000)])])]

/-- The `chainId` of the network entry `name` of a configuration record. -/
def networkChainId (name : String) (cfg : JsValue) : Option Int :=
  (cfg.getPath ["networks", name, "chainId"]).bind asNum

/-- The `url` of the network entry `name` of a configuration record. -/
def networkUrl (name : String) (cfg : JsValue) : Option String :=
  (cfg.getPath ["networks", name, "url"]).bind asStr

/-- The entries of `solidity.compilers` of a configuration record. -/
def compilerEntries (cfg : JsValue) : List JsValue :=
  ((cfg.getPath ["solidity", "compilers"]).map elems).getD []

/-- The `version` of a compiler entry. -/
def entryVersion (entry : JsValue) : Option String :=
  (entry.get "version").bind asStr

/-! ## JSON text

The serialiser and the parser follow the JSON grammar, as `JSON.stringify`
(without indentation) and `JSON.parse` implement it, on the values of
`JsValue`.  Text is a list of characters. -/

namespace Json

/-- The lower-case hexadecimal digit of a number below sixteen. -/
def hexDigit (n : Nat) : Char :=
  if n < 10 then Char.ofNat (48 + n) else Char.ofNat (87 + n)

/-- The text of one character inside a JSON string. -/
def escapeChar (c : Char) : List Char :=
  if c = '\x22' then ['\x5c', '\x22']
  else if c = '\x5c' then ['\x5c', '\x5c']
  else if c = '\n' then ['\x5c', 'n']
  else if c = '\r' then ['\x5c', 'r']
  else if c = '\t' then ['\x5c', 't']
  else if c.toNat = 8 then ['\x5c', 'b']
  else if c.toNat = 12 then ['\x5c', 'f']
  else if c.toNat < 32 then
    ['\x5c', 'u', '0', '0', hexDigit (c.toNat / 16), hexDigit (c.toNat % 16)]
  else [c]

/-- The text of a string: quoted, with its characters escaped. -/
def quote (s : String) : List Char :=
  '\x22' :: (s.data.flatMap escapeChar ++ ['\x22'])

/-- The decimal text of an integer. -/
def intRepr : Int → List Char
  | .ofNat m => Nat.toDigits 10 m
  | .negSucc m => '-' :: Nat.toDigits 10 (m + 1)

/-- Texts joined by commas. -/
def joinComma : List (List Char) → List Char
  | [] => []
  | [x] => x
  | x :: xs => x ++ ',' :: joinComma xs

mutual
/-- The JSON text of a value, `JSON.stringify(v)`; `none` stands for
`undefined`, the result for a function. -/
def stringify : JsValue → Option (List Char)
  | .str s => some (quote s)
  | .num n => some (intRepr n)
  | .bool true => some "true".data
  | .bool false => some "false".data
  | .null => some "null".data
  | .func _ => none
  | .arr es => some ('[' :: (joinComma (stringifyElems es) ++ [']']))
  | .obj ms => some ('\x7b' :: (joinComma (stringifyMembers ms) ++ ['\x7d']))
/-- The texts of the elements of an array; a function is written `null`. -/
def stringifyElems : List JsValue → List (List Char)
  | [] => []
  | e :: es => (stringify e).getD "null".data :: stringifyElems es
/-- The texts of the members of an object; a member holding a function is left out. -/
def stringifyMembers : List (String × JsValue) → List (List Char)
  | [] => []
  | (k, v) :: ms =>
    match stringify v with
    | none => stringifyMembers ms
    | some t => (quote k ++ ':' :: t) :: stringifyMembers ms
end

/-- The JSON whitespace characters. -/
def isWs (c : Char) : Bool :=
  c = ' ' || c = '\t' || c = '\n' || c = '\r'

/-- The text after its leading whitespace. -/
def skipWs : List Char → List Char
  | [] => []
  | c :: cs => if isWs c then skipWs cs else c :: cs

/-- The value of a decimal digit. -/
def digitVal (c : Char) : Option Nat :=
  if 48 ≤ c.toNat ∧ c.toNat ≤ 57 then some (c.toNat - 48) else none

/-- The value of a hexadecimal digit. -/
def hexVal (c : Char) : Option Nat :=
  if 48 ≤ c.toNat ∧ c.toNat ≤ 57 then some (c.toNat - 48)
  else if 97 ≤ c.toNat ∧ c.toNat ≤ 102 then some (c.toNat - 87)
  else if 65 ≤ c.toNat ∧ c.toNat ≤ 70 then some (c.toNat - 55)
  else none

/-- Reads the leading decimal digits of a text onto an accumulator. -/
def readDigits : Nat → List Char → Nat × List Char
  | acc, [] => (acc, [])
  | acc, c :: cs =>
    match digitVal c with
    | some d => readDigits (10 * acc + d) cs
    | none => (acc, c :: cs)

/-- The characters that continue a JSON number into a fraction or an exponent. -/
def isNumberTail (c : Char) : Bool :=
  c = '.' || c = 'e' || c = 'E'

/-- Reads a JSON natural number: `0`, or a non-zero digit followed by digits.
A fraction or an exponent gives no integer and is refused. -/
def parseNat : List Char → Option (Nat × List Char)
  | [] => none
  | c :: cs =>
    match digitVal c with
    | none => none
    | some 0 =>
      match cs with
      | [] => some (0, [])
      | d :: ds => if (digitVal d).isSome || isNumberTail d then none else some (0, d :: ds)
    | some k =>
      match readDigits k cs with
      | (n, []) => some (n, [])
      | (n, d :: ds) => if isNumberTail d then none else some (n, d :: ds)

/-- Reads a JSON integer, with an optional minus sign. -/
def parseInt : List Char → Option (Int × List Char)
  | '-' :: cs => (parseNat cs).map fun p => (-(p.1 : Int), p.2)
  | cs => (parseNat cs).map fun p => ((p.1 : Int), p.2)

/-- Reads a JSON string after its opening quote, up to and including the
closing quote; the characters read so far are accumulated in reverse. -/
def parseStringBody : List Char → List Char → Option (String × List Char)
  | _, [] => none
  | acc, '\x22' :: cs => some (String.mk acc.reverse, cs)
  | acc, '\x5c' :: 'u' :: a :: b :: c :: d :: cs =>
    match hexVal a, hexVal b, hexVal c, hexVal d with
    | some a, some b, some c, some d =>
      parseStringBody (Char.ofNat (4096 * a + 256 * b + 16 * c + d) :: acc) cs
    | _, _, _, _ => none
  | acc, '\x5c' :: e :: cs =>
    if e = '\x22' then parseStringBody ('\x22' :: acc) cs
    else if e = '\x5c' then parseStringBody ('\x5c' :: acc) cs
    else if e = '/' then parseStringBody ('/' :: acc) cs
    else if e = 'b' then parseStringBody (Char.ofNat 8 :: acc) cs
    else if e = 'f' then parseStringBody (Char.ofNat 12 :: acc) cs
    else if e = 'n' then parseStringBody ('\n' :: acc) cs
    else if e = 'r' then parseStringBody ('\r' :: acc) cs
    else if e = 't' then parseStringBody ('\t' :: acc) cs
    else none
  | acc, c :: cs => if c.toNat < 32 then none else parseStringBody (c :: acc) cs

/-- Sets the member `k` of a member list: a member already present keeps its
place and takes the new value, a new member goes last. -/
def setMember (k : String) (v : JsValue) : List (String × JsValue) → List (String × JsValue)
  | [] => [(k, v)]
  | (k', v') :: ms => if k' = k then (k', v) :: ms else (k', v') :: setMember k v ms

mutual
/-- Reads one JSON value at the head of a text (no leading whitespace). The
first argument bounds the nesting depth. -/
def parseValue : Nat → List Char → Option (JsValue × List Char)
  | 0, _ => none
  | fuel + 1, cs =>
    match cs with
    | 't' :: 'r' :: 'u' :: 'e' :: rest => some (.bool true, rest)
    | 'f' :: 'a' :: 'l' :: 's' :: 'e' :: rest => some (.bool false, rest)
    | 'n' :: 'u' :: 'l' :: 'l' :: rest => some (.null, rest)
    | '\x22' :: rest => (parseStringBody [] rest).map fun p => (.str p.1, p.2)
    | '[' :: rest =>
      match skipWs rest with
      | ']' :: rest' => some (.arr [], rest')
      | rest' => (parseElems fuel rest').map fun p => (.arr p.1, p.2)
    | '\x7b' :: rest =>
      match skipWs rest with
      | '\x7d' :: rest' => some (.obj [], rest')
      | rest' => (parseMembers fuel [] rest').map fun p => (.obj p.1, p.2)
    | _ => (parseInt cs).map fun p => (.num p.1, p.2)
/-- Reads the elements of a non-empty array up to and including its closing bracket. -/
def parseElems : Nat → List Char → Option (List JsValue × List Char)
  | 0, _ => none
  | fuel + 1, cs =>
    match parseValue fuel (skipWs cs) with
    | none => none
    | some (v, rest) =>
      match skipWs rest with
      | ',' :: rest' => (parseElems fuel rest').map fun p => (v :: p.1, p.2)
      | ']' :: rest' => some ([v], rest')
      | _ => none
/-- Reads the members of a non-empty object up to and including its closing brace. -/
def parseMembers : Nat → List (String × JsValue) → List Char →
    Option (List (String × JsValue) × List Char)
  | 0, _, _ => none
  | fuel + 1, acc, cs =>
    match skipWs cs with
    | '\x22' :: rest =>
      match parseStringBody [] rest with
      | none => none
      | some (k, rest1) =>
        match skipWs rest1 with
        | ':' :: rest2 =>
          match parseValue fuel (skipWs rest2) with
          | none => none
          | some (v, rest3) =>
            match skipWs rest3 with
            | ',' :: rest4 => parseMembers fuel (setMember k v acc) rest4
            | '\x7d' :: rest4 => some (setMember k v acc, rest4)
            | _ => none
        | _ => none
    | _ => none
end

/-- The value of a JSON text, `JSON.parse(text)`: one value, with nothing but
whitespace around it.  The length of the text bounds the nesting depth. -/
def parse (text : List Char) : Option JsValue :=
  match parseValue (text.length + 1) (skipWs text) with
  | none => none
  | some (v, rest) => if skipWs rest = [] then some v else none

/-- One serialise and parse cycle, `JSON.parse(JSON.stringify(v))`. -/
def roundTrip (v : JsValue) : Option JsValue :=
  (stringify v).bind parse

end Json

/-! ## Version and URL syntax

The record holds a compiler version and a network URL as strings.  Their
syntax is checked by the parsers below, which follow the grammar the
specification gives for each. -/

/-- The pieces of a text between the occurrences of a separator. -/
def splitAt (sep : Char) : List Char → List (List Char)
  | [] => [[]]
  | c :: cs =>
    if c = sep then [] :: splitAt sep cs
    else
      match splitAt sep cs with
      | [] => [[c]]
      | piece :: pieces => (c :: piece) :: pieces

/-- The number written by a text of decimal digits, read onto an accumulator;
`none` when a character is not a digit. -/
def readDecimal : Nat → List Char → Option Nat
  | acc, [] => some acc
  | acc, c :: cs =>
    match Json.digitVal c with
    | some d => readDecimal (10 * acc + d) cs
    | none => none

/-- A decimal number without leading zeros: `0`, or a non-zero digit followed
by digits, and nothing else. -/
def parseDecimal : List Char → Option Nat
  | [] => none
  | ['0'] => some 0
  | '0' :: _ => none
  | cs => readDecimal 0 cs

/-- A semantic version `major.minor.patch`. -/
structure SemVer where
  major : Nat
  minor : Nat
  patch : Nat
  deriving DecidableEq, Repr

/-- Parses a semantic version: three dot-separated decimal numbers without
leading zeros, with nothing left over. -/
def parseSemVer (s : String) : Option SemVer :=
  match splitAt '.' s.data with
  | [a, b, c] =>
    match parseDecimal a, parseDecimal b, parseDecimal c with
    | some x, some y, some z => some ⟨x, y, z⟩
    | _, _, _ => none
  | _ => none

/-- A URL `scheme://a.b.c.d:port/path` with an IPv4 host. -/
structure Url where
  scheme : String
  host : List Nat
  port : Nat
  path : String
  deriving DecidableEq, Repr

/-- Splits a text at the first occurrence of `://`. -/
def splitScheme : List Char → Option (List Char × List Char)
  | [] => none
  | ':' :: '/' :: '/' :: rest => some ([], rest)
  | c :: cs => (splitScheme cs).map fun p => (c :: p.1, p.2)

/-- The authority of a URL and the path after it, which starts at the first slash. -/
def splitPath : List Char → List Char × List Char
  | [] => ([], [])
  | '/' :: rest => ([], '/' :: rest)
  | c :: cs => (c :: (splitPath cs).1, (splitPath cs).2)

/-- A dotted quad: four dot-separated decimal numbers without leading zeros,
each in `0..255`. -/
def parseIPv4 (cs : List Char) : Option (List Nat) :=
  match splitAt '.' cs with
  | [a, b, c, d] =>
    match parseDecimal a, parseDecimal b, parseDecimal c, parseDecimal d with
    | some w, some x, some y, some z =>
      if w ≤ 255 ∧ x ≤ 255 ∧ y ≤ 255 ∧ z ≤ 255 then some [w, x, y, z] else none
    | _, _, _, _ => none
  | _ => none

/-- A port: a decimal number without leading zeros in `1..65535`. -/
def parsePort (cs : List Char) : Option Nat :=
  match parseDecimal cs with
  | some p => if 1 ≤ p ∧ p ≤ 65535 then some p else none
  | none => none

/-- Parses a URL completely: a non-empty alphabetic scheme, `://`, a dotted-quad
IPv4 host, `:`, a port, and the path that remains. -/
def parseUrl (s : String) : Option Url :=
  match splitScheme s.data with
  | none => none
  | some (scheme, rest) =>
    if scheme = [] ∨ ¬ scheme.all Char.isAlpha then none
    else
      match splitAt ':' (splitPath rest).1 with
      | [host, port] =>
        match parseIPv4 host, parsePort port with
        | some h, some p => some ⟨String.mk scheme, h, p, String.mk (splitPath rest).2⟩
        | _, _ => none
      | _ => none

/-! ## Compiler resolution -/

/-- The optimizer settings a compiler is run with. -/
structure OptimizerSettings where
  enabled : Bool
  runs : Int
  deriving DecidableEq, Repr

/-- A compiler as the build tool runs it: its version and its optimizer settings. -/
structure ResolvedCompiler where
  version : String
  optimizer : OptimizerSettings
  deriving DecidableEq, Repr

/-- Modelled from the spec: the consuming build tool is not part of the
repository; its resolution of a compiler entry follows the rule the claim
about it states, "each entry of `solidity.compilers` is compiled with that
entry's own `settings`, and an entry without `settings` gets the tool's
default".  The tool's default is the parameter `dflt`; a setting the entry
leaves out is taken from it. -/
def resolveOptimizer (dflt : OptimizerSettings) (entry : JsValue) : OptimizerSettings :=
  match entry.getPath ["settings", "optimizer"] with
  | none => dflt
  | some o =>
    { enabled := ((o.get "enabled").bind asBool).getD dflt.enabled
      runs := ((o.get "runs").bind asNum).getD dflt.runs }

/-- Modelled from the spec: the compilers the consuming build tool runs for a
configuration record, one for each entry of `solidity.compilers` that names a
version, each with the settings of its own entry. -/
def resolveCompilers (dflt : OptimizerSettings) (cfg : JsValue) : List ResolvedCompiler :=
  (compilerEntries cfg).filterMap fun entry =>
    (entryVersion entry).map fun v => ⟨v, resolveOptimizer dflt entry⟩

/-! ## Loading the module -/

/-- The expressions a configuration module can assign to `module.exports`:
literals, and reads of the inputs a load can depend on. -/
inductive JsExpr where
  | strLit (s : String)
  | numLit (n : Int)
  | boolLit (b : Bool)
  | arrLit (elems : List JsExpr)
  | objLit (props : List (String × JsExpr))
  | envVar (name : String)
  | argv (index : Nat)
  | now

/-- The statements of a configuration module. -/
inductive Stmt where
  | require (name : String)
  | assignExports (e : JsExpr)

/-- The outcome of a `require` call: it returns normally, the package does not
resolve (`MODULE_NOT_FOUND`), or the package resolves and its own module body
throws while it runs (as a plugin does when it is loaded outside the process
of the build tool). -/
inductive RequireOutcome where
  | returns
  | notFound
  | throws
  deriving DecidableEq, Repr

/-- The environment of a load: the outcome of each `require` call, the
environment variables, the command-line arguments and the clock. -/
structure Env where
  requireOutcome : String → RequireOutcome
  vars : String → Option String
  args : List String
  clock : Int

namespace JsExpr

mutual
/-- The value of an expression in an environment. -/
def eval (env : Env) : JsExpr → JsValue
  | strLit s => .str s
  | numLit n => .num n
  | boolLit b => .bool b
  | arrLit es => .arr (evalElems env es)
  | objLit ps => .obj (evalProps env ps)
  | envVar name => ((env.vars name).map JsValue.str).getD .null
  | argv i => ((env.args.get? i).map JsValue.str).getD .null
  | now => .num env.clock
/-- The values of the elements of an array literal. -/
def evalElems (env : Env) : List JsExpr → List JsValue
  | [] => []
  | e :: es => eval env e :: evalElems env es
/-- The members of an object literal. -/
def evalProps (env : Env) : List (String × JsExpr) → List (String × JsValue)
  | [] => []
  | (k, e) :: ps => (k, eval env e) :: evalProps env ps
end

mutual
/-- Whether an expression reads an environment variable, an argument or the clock. -/
def readsInput : JsExpr → Bool
  | arrLit es => readsInputElems es
  | objLit ps => readsInputProps ps
  | envVar _ => true
  | argv _ => true
  | now => true
  | _ => false
/-- Whether an element of an array literal reads an input. -/
def readsInputElems : List JsExpr → Bool
  | [] => false
  | e :: es => readsInput e || readsInputElems es
/-- Whether a property of an object literal reads an input. -/
def readsInputProps : List (String × JsExpr) → Bool
  | [] => false
  | (_, e) :: ps => readsInput e || readsInputProps ps
end

end JsExpr

/-- The object literal assigned to `module.exports` (lines 4 to 24 of the module). -/
def moduleExportsExpr : JsExpr :=
  .objLit [
    ("networks", .objLit [
      ("localhost", .objLit [
        ("url", .strLit "http://127.0.0.1:8545"),
        ("chainId", .numLit 31337)])]),
    ("solidity", .objLit [
      ("compilers", .arrLit [
        .objLit [
          ("version", .strLit "0.8.13")]])]),
    ("settings", .objLit [
      ("optimizer", .objLit [
        ("enabled", .boolLit true),
        ("runs", .numLit 1000)])])]

/-- The statements of `hardhat.config.js`, in order. -/
def hardhatConfigModule : List Stmt :=
  [ .require "@nomicfoundation/hardhat-toolbox",
    .assignExports moduleExportsExpr ]

/-- Runs one statement on the current value of `module.exports`.  A `require`
whose result is discarded leaves `module.exports` as it is when the call
returns; when the package does not resolve, or resolves and throws while it
runs, the exception ends the load (`none`). -/
def execStmt (env : Env) (exports : JsValue) : Stmt → Option JsValue
  | .require name =>
    match env.requireOutcome name with
    | .returns => some exports
    | .notFound => none
    | .throws => none
  | .assignExports e => some (e.eval env)

/-- Runs the statements of a module in order. -/
def execModule (env : Env) : JsValue → List Stmt → Option JsValue
  | exports, [] => some exports
  | exports, st :: rest => (execStmt env exports st).bind fun v => execModule env v rest

/-- Loads `hardhat.config.js`: runs its statements from the empty object a
module starts with and gives the final `module.exports`. -/
def loadModule (env : Env) : Option JsValue :=
  execModule env (.obj []) hardhatConfigModule

/-! ## Lemmas -/

mutual
/-- An expression that reads no input has the same value in every environment. -/
theorem JsExpr.eval_eq_of_readsInput_false (env₁ env₂ : Env) :
    ∀ e : JsExpr, e.readsInput = false → e.eval env₁ = e.eval env₂
  | .strLit _, _ => rfl
  | .numLit _, _ => rfl
  | .boolLit _, _ => rfl
  | .arrLit es, h => by
    have ih := JsExpr.evalElems_eq_of_readsInput_false env₁ env₂ es
      (by simpa [JsExpr.readsInput] using h)
    simp [JsExpr.eval, ih]
  | .objLit ps, h => by
    have ih := JsExpr.evalProps_eq_of_readsInput_false env₁ env₂ ps
      (by simpa [JsExpr.readsInput] using h)
    simp [JsExpr.eval, ih]
  | .envVar _, h => by simp [JsExpr.readsInput] at h
  | .argv _, h => by simp [JsExpr.readsInput] at h
  | .now, h => by simp [JsExpr.readsInput] at h
/-- Elements that read no input have the same values in every environment. -/
theorem JsExpr.evalElems_eq_of_readsInput_false (env₁ env₂ : Env) :
    ∀ es : List JsExpr, JsExpr.readsInputElems es = false →
      JsExpr.evalElems env₁ es = JsExpr.evalElems env₂ es
  | [], _ => rfl
  | e :: es, h => by
    have h' : e.readsInput = false ∧ JsExpr.readsInputElems es = false := by
      simpa [JsExpr.readsInputElems] using h
    simp [JsExpr.evalElems, JsExpr.eval_eq_of_readsInput_false env₁ env₂ e h'.1,
      JsExpr.evalElems_eq_of_readsInput_false env₁ env₂ es h'.2]
/-- Properties that read no input have the same values in every environment. -/
theorem JsExpr.evalProps_eq_of_readsInput_false (env₁ env₂ : Env) :
    ∀ ps : List (String × JsExpr), JsExpr.readsInputProps ps = false →
      JsExpr.evalProps env₁ ps = JsExpr.evalProps env₂ ps
  | [], _ => rfl
  | (k, e) :: ps, h => by
    have h' : e.readsInput = false ∧ JsExpr.readsInputProps ps = false := by
      simpa [JsExpr.readsInputProps] using h
    simp [JsExpr.evalProps, JsExpr.eval_eq_of_readsInput_false env₁ env₂ e h'.1,
      JsExpr.evalProps_eq_of_readsInput_false env₁ env₂ ps h'.2]
end

/-- The object literal of the module reads no input. -/
theorem readsInput_moduleExportsExpr : moduleExportsExpr.readsInput = false := by
  decide

/-- The object literal of the module denotes `moduleExports` in every environment. -/
theorem eval_moduleExportsExpr (env : Env) : moduleExportsExpr.eval env = moduleExports :=
  rfl

/-- A load exports `moduleExports` when the `require` returns and ends without
a record otherwise. -/
theorem loadModule_eq (env : Env) :
    loadModule env =
      match env.requireOutcome "@nomicfoundation/hardhat-toolbox" with
      | .returns => some moduleExports
      | .notFound => none
      | .throws => none := by
  unfold loadModule hardhatConfigModule
  simp only [execModule, execStmt]
  cases env.requireOutcome "@nomicfoundation/hardhat-toolbox" <;> rfl

/-- A dotted quad that parses has four octets, each at most 255. -/
theorem parseIPv4_bounds (cs : List Char) (h : List Nat) (hp : parseIPv4 cs = some h) :
    h.length = 4 ∧ ∀ o ∈ h, o ≤ 255 := by
  unfold parseIPv4 at hp
  split at hp
  · split at hp
    · split at hp
      · rename_i hb
        cases hp
        simp only [List.length_cons, List.length_nil, List.mem_cons, List.mem_singleton,
          List.not_mem_nil, or_false, true_and]
        rintro o (rfl | rfl | rfl | rfl)
        · exact hb.1
        · exact hb.2.1
        · exact hb.2.2.1
        · exact hb.2.2.2
      · cases hp
    · cases hp
  · cases hp

/-- A port that parses lies in `1..65535`. -/
theorem parsePort_bounds (cs : List Char) (p : Nat) (hp : parsePort cs = some p) :
    1 ≤ p ∧ p ≤ 65535 := by
  unfold parsePort at hp
  split at hp
  · split at hp
    · rename_i hb
      cases hp
      exact hb
    · cases hp
  · cases hp

/-- A URL that parses has a host of four octets, each at most 255, and a port
in `1..65535`. -/
theorem parseUrl_bounds (s : String) (u : Url) (hu : parseUrl s = some u) :
    u.host.length = 4 ∧ (∀ o ∈ u.host, o ≤ 255) ∧ 1 ≤ u.port ∧ u.port ≤ 65535 := by
  unfold parseUrl at hu
  split at hu
  · cases hu
  · split at hu
    · cases hu
    · split at hu
      · split at hu
        · rename_i hh hp
          cases hu
          exact ⟨(parseIPv4_bounds _ _ hh).1, (parseIPv4_bounds _ _ hh).2,
            (parsePort_bounds _ _ hp).1, (parsePort_bounds _ _ hp).2⟩
        · cases hu
      · cases hu

/-- A resolver that finds the optimizer inside the compiler entry uses it: the
same settings placed in the entry's own `settings` are the ones the compiler
is run with. -/
theorem resolveCompilers_entry_settings (dflt : OptimizerSettings) :
    resolveCompilers dflt
      (.obj [("solidity", .obj [("compilers", .arr [
        .obj [("version", .str "0.8.13"),
              ("settings", .obj [("optimizer", .obj [
                ("enabled", .bool true), ("runs", .num 1000)])])]])])]) =
      [⟨"0.8.13", ⟨true, 1000⟩⟩] :=
  rfl

/-- The JSON text of the exported record. -/
theorem stringify_moduleExports :
    (Json.stringify moduleExports).map String.mk = some (String.join [
      "\x7b\"networks\":\x7b\"localhost\":\x7b\"url\":\"http://127.0.0.1:8545\",",
      "\"chainId\":31337\x7d\x7d,\"solidity\":\x7b\"compilers\":[\x7b\"version\":\"0.8.13\"\x7d]\x7d,",
      "\"settings\":\x7b\"optimizer\":\x7b\"enabled\":true,\"runs\":1000\x7d\x7d\x7d"]) := by
  decide

/-! ## The claims -/

/-- C1: the `networks` map of the exported record has exactly one entry; its
key is `localhost` and its `chainId` is the positive integer 31337. -/
theorem networks_single_localhost :
    (moduleExports.get "networks").map keys = some ["localhost"] ∧
    (moduleExports.get "networks").map (fun n => n.keys.length) = some 1 ∧
    ∃ n : Int, networkChainId "localhost" moduleExports = some n ∧ 0 < n ∧ n = 31337 :=
  ⟨by decide, by decide, 31337, by decide, by decide, rfl⟩

/-- C2: `solidity.compilers` of the exported record has exactly one element,
and its `version` string `0.8.13` parses as a semantic version: three
dot-separated decimal numbers without leading zeros, major 0, minor 8, patch
13, with nothing left over. -/
theorem compilers_single_semver :
    (compilerEntries moduleExports).length = 1 ∧
    (compilerEntries moduleExports).map entryVersion = [some "0.8.13"] ∧
    (compilerEntries moduleExports).map (fun e => (entryVersion e).bind parseSemVer) =
      [some ⟨0, 8, 13⟩] := by
  decide

/-- C3: resolved the way the build tool resolves it, the 0.8.13 compiler of
the exported record is run with the tool's default optimizer settings,
whatever they are, and not with the `settings.optimizer` of the record: with
the default of optimizer disabled (and 200 runs) it is run with the optimizer
disabled. -/
theorem resolveCompilers_moduleExports :
    (∀ dflt : OptimizerSettings,
      resolveCompilers dflt moduleExports = [⟨"0.8.13", dflt⟩]) ∧
    resolveCompilers ⟨false, 200⟩ moduleExports = [⟨"0.8.13", ⟨false, 200⟩⟩] ∧
    resolveCompilers ⟨false, 200⟩ moduleExports ≠ [⟨"0.8.13", ⟨true, 1000⟩⟩] :=
  ⟨fun _ => rfl, rfl, by decide⟩

/-- C4: serialising the exported record to JSON text and parsing the text back
gives the record itself; after the cycle `settings.optimizer.enabled` is still
true and `settings.optimizer.runs` is still 1000. -/
theorem roundTrip_moduleExports :
    Json.roundTrip moduleExports = some moduleExports ∧
    ((Json.roundTrip moduleExports).bind
        (getPath ["settings", "optimizer", "enabled"])).bind asBool = some true ∧
    ((Json.roundTrip moduleExports).bind
        (getPath ["settings", "optimizer", "runs"])).bind asNum = some 1000 :=
  ⟨rfl, rfl, rfl⟩

/-- C5: loading the module is deterministic: the assigned literal reads no
environment variable, argument or clock; a load whose `require` returns
exports `moduleExports`, a load whose `require` does not return (the package
does not resolve, or it throws while it runs) exports no record; and any two
loads, in any two environments, that export a record export the same record. -/
theorem loadModule_deterministic :
    moduleExportsExpr.readsInput = false ∧
    (∀ env : Env, env.requireOutcome "@nomicfoundation/hardhat-toolbox" = .returns →
      loadModule env = some moduleExports) ∧
    (∀ env : Env, env.requireOutcome "@nomicfoundation/hardhat-toolbox" ≠ .returns →
      loadModule env = none) ∧
    ∀ (env₁ env₂ : Env) (r₁ r₂ : JsValue),
      loadModule env₁ = some r₁ → loadModule env₂ = some r₂ → r₁ = r₂ := by
  refine ⟨readsInput_moduleExportsExpr, ?_, ?_, ?_⟩
  · intro env h
    rw [loadModule_eq, h]
  · intro env h
    rw [loadModule_eq]
    cases hr : env.requireOutcome "@nomicfoundation/hardhat-toolbox"
    · exact absurd hr h
    · rfl
    · rfl
  · have exported : ∀ (env : Env) (r : JsValue),
        loadModule env = some r → r = moduleExports := by
      intro env r h
      rw [loadModule_eq] at h
      cases hr : env.requireOutcome "@nomicfoundation/hardhat-toolbox" <;>
        simp only [hr] at h
      · cases h
        rfl
      · cases h
      · cases h
    intro env₁ env₂ r₁ r₂ h₁ h₂
    rw [exported env₁ r₁ h₁, exported env₂ r₂ h₂]

/-- C5, at two environments that differ in every input and whose `require`
returns, and at one where the package resolves and throws. -/
theorem loadModule_deterministic_witness :
    loadModule ⟨fun _ => .returns, fun _ => none, [], 0⟩ = some moduleExports ∧
    loadModule ⟨fun _ => .returns, fun _ => some "mainnet", ["--network", "x"], 1700000000⟩ =
      some moduleExports ∧
    loadModule ⟨fun _ => .throws, fun _ => none, [], 0⟩ = none ∧
    moduleExports = moduleExports :=
  ⟨loadModule_deterministic.2.1 _ rfl, loadModule_deterministic.2.1 _ rfl,
    loadModule_deterministic.2.2.1 ⟨fun _ => .throws, fun _ => none, [], 0⟩ (by decide),
    loadModule_deterministic.2.2.2
      ⟨fun _ => .returns, fun _ => none, [], 0⟩
      ⟨fun _ => .returns, fun _ => some "mainnet", ["--network", "x"], 1700000000⟩
      moduleExports moduleExports rfl rfl⟩

/-- C6: the `url` of the `localhost` network entry, `http://127.0.0.1:8545`,
parses completely as scheme `http`, the dotted-quad host 127.0.0.1 with four
octets in `0..255`, the port 8545 in `1..65535`, and an empty path. -/
theorem localhost_url_valid :
    networkUrl "localhost" moduleExports = some "http://127.0.0.1:8545" ∧
    ∃ u : Url, (networkUrl "localhost" moduleExports).bind parseUrl = some u ∧
      u.scheme = "http" ∧ u.host = [127, 0, 0, 1] ∧ (∀ o ∈ u.host, o ≤ 255) ∧
      u.port = 8545 ∧ 1 ≤ u.port ∧ u.port ≤ 65535 ∧ u.path = "" :=
  ⟨by decide, ⟨"http", [127, 0, 0, 1], 8545, ""⟩, by decide, rfl, rfl, by decide, rfl,
    by decide, by decide, rfl⟩

/-- C7: the exported record has exactly the three top-level fields `networks`,
`solidity` and `settings`; its leaves are the url and chainId of the network,
the version of the compiler, and enabled and runs of the optimizer, of types
string, number, string, boolean and number; no field holds a function. -/
theorem moduleExports_shape :
    moduleExports.keys = ["networks", "solidity", "settings"] ∧
    leaves [] moduleExports =
      [ (["networks", "localhost", "url"], .string),
        (["networks", "localhost", "chainId"], .number),
        (["solidity", "compilers", "0", "version"], .string),
        (["settings", "optimizer", "enabled"], .boolean),
        (["settings", "optimizer", "runs"], .number) ] ∧
    hasFunction moduleExports = false := by
  decide

/-- C8: the single element of `solidity.compilers` has `version` as its only
key, `solidity` has `compilers` as its only key, and the only property named
`optimizer` in the record is the one at `settings.optimizer`. -/
theorem optimizer_only_under_settings :
    (compilerEntries moduleExports).map keys = [["version"]] ∧
    (moduleExports.get "solidity").map keys = some ["compilers"] ∧
    pathsTo "optimizer" [] moduleExports = [["settings", "optimizer"]] := by
  decide

end HardhatConfig
